import Mathlib

/-!
Shallow embedding of the UI layout reconstruction program (generate_html.py):
the box geometry, the containment-driven tree builder, the row/column
alignment heuristic, and the markup renderer, together with verified
properties of the embedding.

Modeling conventions:
* Python float arithmetic on these small integer inputs is modeled by exact
  rational arithmetic; the literal 0.6 is the exact rational 3/5.
* Divisions of machine integers are written with Rat.divInt, which is the
  exact quotient of the two integers; this keeps every definition reducible
  by the kernel.
* A computation that raises a Python exception (ZeroDivisionError) is
  modeled by an Option-valued function returning none; none propagates.
* Python object identity is modeled by a numeric id field on each element;
  the children set of an element is modeled as a list in insertion order
  (CPython set iteration order is unspecified; the spec itself notes the
  outcome is iteration-order-dependent and asks for a fixed order).
* Recursive tree functions take an explicit fuel argument so that they stay
  structurally recursive; wrappers pass the tree size, which is always
  enough fuel, and fuel-independence lemmas below recover the natural
  recursion equations.
-/

set_option maxRecDepth 8000
set_option maxHeartbeats 1000000

/-- Bounding box with integer corner coordinates, as in the source dataclass. -/
structure BBox where
  x1 : Int
  y1 : Int
  x2 : Int
  y2 : Int
deriving DecidableEq

/-- The area expression the source computes inline: (x2 - x1) * (y2 - y1). -/
def BBox.area (b : BBox) : Int := (b.x2 - b.x1) * (b.y2 - b.y1)

/-- overlap_ratio from the source: clip the two rectangles; if the clipped
rectangle is empty return 0.0; otherwise divide the intersection area by the
own area of this box.  The source divides without guarding the denominator,
so a zero own area raises ZeroDivisionError there; that fault is none here. -/
def BBox.overlap_ratio (self child : BBox) : Option ℚ :=
  let x_left := max self.x1 child.x1
  let y_top := max self.y1 child.y1
  let x_right := min self.x2 child.x2
  let y_bottom := min self.y2 child.y2
  if x_right < x_left ∨ y_bottom < y_top then some 0
  else
    let intersection := (x_right - x_left) * (y_bottom - y_top)
    let self_area := (self.x2 - self.x1) * (self.y2 - self.y1)
    if self_area = 0 then none
    else some (Rat.divInt intersection self_area)

/-- contains from the source: center of the child inside the closed
rectangle of self, strictly larger own area, and overlap fraction of the
child inside self above 3/5.  The overlap fraction is computed before the
boolean conjunction, so its fault propagates unconditionally. -/
def BBox.contains (self child : BBox) : Option Bool :=
  let child_center_x : ℚ := Rat.divInt (child.x1 + child.x2) 2
  let child_center_y : ℚ := Rat.divInt (child.y1 + child.y2) 2
  let center_contained : Bool :=
    decide ((self.x1 : ℚ) ≤ child_center_x) && decide (child_center_x ≤ (self.x2 : ℚ)) &&
      decide ((self.y1 : ℚ) ≤ child_center_y) && decide (child_center_y ≤ (self.y2 : ℚ))
  let self_area := (self.x2 - self.x1) * (self.y2 - self.y1)
  let child_area := (child.x2 - child.x1) * (child.y2 - child.y1)
  match BBox.overlap_ratio child self with
  | none => none
  | some overlap =>
      some (center_contained && decide (self_area > child_area) &&
        decide (overlap > Rat.divInt 3 5))

/-- The center-containment condition of the containment test, as a
proposition over the same expressions the code evaluates. -/
def center_within (self child : BBox) : Prop :=
  (self.x1 : ℚ) ≤ Rat.divInt (child.x1 + child.x2) 2 ∧
    Rat.divInt (child.x1 + child.x2) 2 ≤ (self.x2 : ℚ) ∧
    (self.y1 : ℚ) ≤ Rat.divInt (child.y1 + child.y2) 2 ∧
    Rat.divInt (child.y1 + child.y2) 2 ≤ (self.y2 : ℚ)

instance (self child : BBox) : Decidable (center_within self child) := by
  unfold center_within
  infer_instance

/-- An element of the layout tree: class label, box, optional numeric class
id, an id modeling Python object identity, and the children collection. -/
inductive Element where
  | mk (class_name : String) (bbox : BBox) (class_id : Option Int) (id : Nat)
      (children : List Element)

/-- Class label accessor. -/
def Element.class_name : Element → String
  | .mk n _ _ _ _ => n

/-- Box accessor. -/
def Element.bbox : Element → BBox
  | .mk _ b _ _ _ => b

/-- Numeric class id accessor. -/
def Element.class_id : Element → Option Int
  | .mk _ _ ci _ _ => ci

/-- Identity accessor (models Python object identity). -/
def Element.id : Element → Nat
  | .mk _ _ _ i _ => i

/-- Children accessor. -/
def Element.children : Element → List Element
  | .mk _ _ _ _ cs => cs

/-- Replace the children collection of an element. -/
def Element.withChildren : Element → List Element → Element
  | .mk n b ci i _, cs => .mk n b ci i cs

mutual

/-- Number of nodes of an element tree. -/
def esize : Element → Nat
  | .mk _ _ _ _ cs => 1 + esizeL cs

/-- Number of nodes of a forest. -/
def esizeL : List Element → Nat
  | [] => 0
  | c :: cs => esize c + esizeL cs

end

/-- Fueled preorder traversal collecting the identity of every node. -/
def idListF : Nat → Element → List Nat
  | 0, _ => []
  | fuel + 1, .mk _ _ _ i cs => i :: (cs.map (idListF fuel)).flatten

/-- Identities of all nodes of a tree, in preorder. -/
def idList (e : Element) : List Nat := idListF (esize e) e

/-- Identities of all nodes of a forest. -/
def idsL (l : List Element) : List Nat := (l.map idList).flatten

/-- Identities of a tree as a multiset. -/
def mIds (e : Element) : Multiset Nat := (idList e : Multiset Nat)

/-- Identities of a forest as a multiset. -/
def mIdsL (l : List Element) : Multiset Nat := (idsL l : Multiset Nat)

/-- The first loop of add_child in the source: test every current child
with contains of the candidate box over the child box, splitting the
children into the ones to move under the candidate and the ones kept.  A
fault in any containment test aborts the whole insertion (none). -/
def optPartition (b : BBox) : List Element → Option (List Element × List Element)
  | [] => some ([], [])
  | c :: rest =>
    match BBox.contains b c.bbox with
    | none => none
    | some true => (optPartition b rest).map (fun p => (c :: p.1, p.2))
    | some false => (optPartition b rest).map (fun p => (p.1, c :: p.2))

/-- The second loop of add_child in the source: scan the remaining children
in order for the first one whose box contains the candidate box, returning
the split around it, or none of them, or a fault. -/
def scanDelegate (b : BBox) : List Element → Option (Option (List Element × Element × List Element))
  | [] => some none
  | c :: rest =>
    match BBox.contains c.bbox b with
    | none => none
    | some true => some (some ([], c, rest))
    | some false =>
        (scanDelegate b rest).map (fun r => r.map (fun t => (c :: t.1, t.2.1, t.2.2)))

/-- Fueled add_child from the source.  Steps, in source order: (1) if the
candidate is already a direct child (by identity), stop; (2) move every
current child contained in the candidate under the candidate, recursively;
(3) if some remaining child contains the candidate, delegate the insertion
to the first such child; (4) otherwise append the candidate as a direct
child.  Exhausted fuel also yields none; the wrappers below always pass
sufficient fuel, and the theorems about successful runs hold for any fuel. -/
def addChildF : Nat → Element → Element → Option Element
  | 0, _, _ => none
  | fuel + 1, .mk nm bb ci i cs, child =>
    if cs.any (fun c => c.id == child.id) then some (.mk nm bb ci i cs)
    else
      match optPartition child.bbox cs with
      | none => none
      | some (moved, kept) =>
        match moved.foldlM (addChildF fuel) child with
        | none => none
        | some child1 =>
          match scanDelegate child.bbox kept with
          | none => none
          | some none => some (.mk nm bb ci i (kept ++ [child1]))
          | some (some (pre, c, suf)) =>
              (addChildF fuel c child1).map (fun c1 => .mk nm bb ci i (pre ++ c1 :: suf))

/-- add_child of the source, with the tree sizes as (always sufficient) fuel. -/
def Element.add_child (self child : Element) : Option Element :=
  addChildF (esize self + esize child) self child

/-- create_tree from the source: start from a sentinel root element with
class label root and a zero box, then insert every input element in order.
The sentinel gets identity 0, modeling the fresh Python object. -/
def create_tree (elements : List Element) : Option Element :=
  elements.foldlM Element.add_child (Element.mk "root" ⟨0, 0, 0, 0⟩ none 0 [])

/-- Center x coordinate of an element box, as in the source: (x1 + x2) / 2. -/
def center_x (e : Element) : ℚ := Rat.divInt (e.bbox.x1 + e.bbox.x2) 2

/-- Center y coordinate of an element box, as in the source: (y1 + y2) / 2. -/
def center_y (e : Element) : ℚ := Rat.divInt (e.bbox.y1 + e.bbox.y2) 2

/-- Arithmetic mean of a list of rationals. -/
def listMean (xs : List ℚ) : ℚ := xs.sum / (xs.length : ℚ)

/-- Population variance of a list of rationals, the square of np.std.  The
comparison the source makes between two standard deviations is equivalent
to the comparison between the two variances because the square root is
strictly monotone on nonnegative reals; the theorems below state the rule
through Real.sqrt of this variance. -/
def listVar (xs : List ℚ) : ℚ :=
  ((xs.map fun x => (x - listMean xs) * (x - listMean xs)).sum) / (xs.length : ℚ)

/-- determine_flex_direction from the source: flex-col when there are no
children, otherwise flex-row exactly when the dispersion of the x centers
strictly exceeds the dispersion of the y centers. -/
def determine_flex_direction (element : Element) : String :=
  if element.children.isEmpty then "flex-col"
  else if listVar (element.children.map center_x) > listVar (element.children.map center_y)
    then "flex-row"
  else "flex-col"

/-- Stable insertion of an element into a list already sorted by the key:
the new element goes after every element with a key not above its own. -/
def insertSorted (key : Element → Int) (x : Element) : List Element → List Element
  | [] => [x]
  | y :: ys => if key x < key y then x :: y :: ys else y :: insertSorted key x ys

/-- Stable ascending sort by an integer key, modeling Python sorted. -/
def sortByKey (key : Element → Int) (l : List Element) : List Element :=
  l.foldl (fun acc x => insertSorted key x acc) []

/-- get_children_order from the source: sort the children by x1 for a row,
by y1 for a column. -/
def get_children_order (orientation : String) (element : Element) : List Element :=
  if orientation == "flex-row" then sortByKey (fun x => x.bbox.x1) element.children
  else sortByKey (fun x => x.bbox.y1) element.children

/-- get_element_tag from the source. -/
def get_element_tag (class_name : String) : String :=
  match class_name with
  | "button" => "button"
  | "heading" => "h2"
  | "paragraph" => "p"
  | "image" => "img"
  | "input" => "input"
  | "span" => "span"
  | "text" => "span"
  | "header" => "header"
  | "footer" => "footer"
  | "section" => "section"
  | _ => "div"

/-- get_tailwind_classes from the source. -/
def get_tailwind_classes (element : Element) : String :=
  let base_classes := "relative "
  match element.class_name with
  | "button" => base_classes ++ "px-4 py-2 bg-blue-500 text-white rounded hover:bg-blue-600"
  | "div" => base_classes ++ "flex " ++ determine_flex_direction element ++ " gap-4"
  | "div-bg" => base_classes ++ "flex " ++ determine_flex_direction element ++ " gap-4"
  | "footer" => base_classes ++ "flex " ++ determine_flex_direction element ++
      " items-center justify-between w-full bg-gray-100 p-4"
  | "grid" => base_classes ++ "grid grid-cols-3 gap-4"
  | "header" => base_classes ++ "flex " ++ determine_flex_direction element ++
      " items-center justify-between w-full bg-white p-4"
  | "heading" => base_classes ++ "text-2xl font-bold mb-4"
  | "icon" => base_classes ++ "w-6 h-6"
  | "image" => base_classes ++ "object-cover"
  | "input" => base_classes ++ "border rounded px-3 py-2 focus:outline-none focus:ring-2"
  | "list" => base_classes ++ "flex " ++ determine_flex_direction element ++ " gap-2"
  | "paragraph" => base_classes ++ "text-gray-600 leading-relaxed"
  | "section" => base_classes ++ "flex " ++ determine_flex_direction element ++ " gap-6 p-6"
  | "span" => base_classes ++ "flex " ++ determine_flex_direction element ++ " gap-2"
  | "text" => base_classes ++ "text-gray-800"
  | _ => base_classes

/-- Rendering of the optional class id attribute value; Python prints the
None object as the four letters None. -/
def classIdStr : Option Int → String
  | none => "None"
  | some n => toString n

/-- Two spaces of indentation per nesting level. -/
def indentStr (indent : Nat) : String := String.join (List.replicate indent "  ")

/-- The opening line the source builds for one element (the html variable
before the children loop), one branch per class label. -/
def opening_html (element : Element) (indent : Nat) : String :=
  let indent_str := indentStr indent
  let tag := get_element_tag element.class_name
  let classes := get_tailwind_classes element
  let width := element.bbox.x2 - element.bbox.x1
  let height := element.bbox.y2 - element.bbox.y1
  match element.class_name with
  | "image" =>
      indent_str ++ "<" ++ tag ++ " src=\x27https://picsum.photos/" ++ toString width ++
        "/" ++ toString height ++ "?random=1\x27 alt=\x27Placeholder\x27 class=\x27" ++
        classes ++ "\x27 data-id=\x27" ++ classIdStr element.class_id ++
        "\x27 data-type=\x27" ++ element.class_name ++ "\x27>\n"
  | "button" =>
      indent_str ++ "<" ++ tag ++ " class=\x27" ++ classes ++ "\x27 data-id=\x27" ++
        classIdStr element.class_id ++ "\x27 data-type=\x27" ++ element.class_name ++
        "\x27>Click me\n"
  | "heading" =>
      indent_str ++ "<" ++ tag ++ " class=\x27" ++ classes ++ "\x27 data-id=\x27" ++
        classIdStr element.class_id ++ "\x27 data-type=\x27" ++ element.class_name ++
        "\x27>Sample Heading\n"
  | "paragraph" =>
      indent_str ++ "<" ++ tag ++ " class=\x27" ++ classes ++ "\x27 data-id=\x27" ++
        classIdStr element.class_id ++ "\x27 data-type=\x27" ++ element.class_name ++
        "\x27>Lorem ipsum dolor sit amet, consectetur adipiscing elit. Sed do eiusmod tempor incididunt ut labore et dolore magna aliqua.\n"
  | "input" =>
      indent_str ++ "<" ++ tag ++ " type=\x27text\x27 placeholder=\x27Enter text here...\x27 class=\x27" ++
        classes ++ "\x27 data-id=\x27" ++ classIdStr element.class_id ++
        "\x27 data-type=\x27" ++ element.class_name ++ "\x27>\n"
  | "text" =>
      indent_str ++ "<" ++ tag ++ " class=\x27" ++ classes ++ "\x27 data-id=\x27" ++
        classIdStr element.class_id ++ "\x27 data-type=\x27" ++ element.class_name ++
        "\x27>Sample text\n"
  | "span" =>
      indent_str ++ "<" ++ tag ++ " class=\x27" ++ classes ++ "\x27 data-id=\x27" ++
        classIdStr element.class_id ++ "\x27 data-type=\x27" ++ element.class_name ++
        "\x27>Sample text\n"
  | _ =>
      indent_str ++ "<" ++ tag ++ " class=\x27" ++ classes ++ "\x27 data-id=\x27" ++
        classIdStr element.class_id ++ "\x27 data-type=\x27" ++ element.class_name ++
        "\x27>\n"

/-- Fueled generate_element_html from the source.  An element whose class
label equals the string root is never emitted: the markup of its ordered
children is emitted in its place at the same indentation.  Otherwise the
opening line is emitted and, except for the self-closing image and input
kinds, the ordered children are rendered one level deeper, followed by the
closing tag.  (A Python element object is always truthy, so the falsy guard
of the source never fires; the stdout debug print for headers does not
contribute to the returned string.) -/
def renderF : Nat → Element → Nat → String
  | 0, _, _ => ""
  | fuel + 1, element, indent =>
    if element.class_name == "root" then
      String.join ((get_children_order (determine_flex_direction element) element).map
        fun child => renderF fuel child indent)
    else
      let html := opening_html element indent
      if element.class_name ∉ (["image", "input"] : List String) then
        html ++
          String.join ((get_children_order (determine_flex_direction element) element).map
            fun child => renderF fuel child (indent + 1)) ++
          indentStr indent ++ "</" ++ get_element_tag element.class_name ++ ">\n"
      else html

/-- generate_element_html of the source, with the tree size as fuel. -/
def generate_element_html (element : Element) (indent : Nat) : String :=
  renderF (esize element) element indent

/-- generate_html of the source: render the root at indentation 0. -/
def generate_html (root : Element) : String := generate_element_html root 0

/-- Does the second character list occur at the start of the first one. -/
def startsList : List Char → List Char → Bool
  | _, [] => true
  | [], _ :: _ => false
  | a :: as, b :: bs => a == b && startsList as bs

/-- Does the second character list occur anywhere inside the first one. -/
def hasSub : List Char → List Char → Bool
  | [], nd => startsList [] nd
  | a :: t, nd => startsList (a :: t) nd || hasSub t nd

/-- Concrete element: the header of the end-to-end scenario of the spec. -/
def eHeader : Element := .mk "header" ⟨0, 0, 100, 20⟩ (some 4) 1 []

/-- Concrete element: the button of the end-to-end scenario of the spec. -/
def eButton : Element := .mk "button" ⟨10, 5, 40, 15⟩ (some 0) 2 []

/-- Concrete element with the inverted box of the rejection scenario of the
spec (x2 below x1 and y2 below y1, computed area 1600). -/
def eInvalidBox : Element := .mk "div" ⟨50, 50, 10, 10⟩ (some 1) 3 []

/-- Concrete element: a large container box. -/
def eA1 : Element := .mk "div" ⟨0, 0, 100, 100⟩ (some 1) 4 []

/-- Concrete element: a box straddling the right edge of eA1, with exactly
two thirds of its area inside eA1. -/
def eA2 : Element := .mk "div" ⟨60, 40, 120, 80⟩ (some 1) 5 []

/-- Concrete element: a small box inside eA2 whose center lies outside eA1. -/
def eE : Element := .mk "button" ⟨100, 50, 116, 70⟩ (some 0) 6 []

/-- Point-like child at (0, 0). -/
def ptA : Element := .mk "text" ⟨0, 0, 0, 0⟩ none 7 []

/-- Point-like child at (10, 0). -/
def ptB : Element := .mk "text" ⟨10, 0, 10, 0⟩ none 8 []

/-- Point-like child at (20, 0). -/
def ptC : Element := .mk "text" ⟨20, 0, 20, 0⟩ none 9 []

/-- Point-like child at (30, 0). -/
def ptD : Element := .mk "text" ⟨30, 0, 30, 0⟩ none 10 []

/-- Point-like child at (0, 10). -/
def ptE : Element := .mk "text" ⟨0, 10, 0, 10⟩ none 11 []

/-- Point-like child at (0, 20). -/
def ptF : Element := .mk "text" ⟨0, 20, 0, 20⟩ none 12 []

/-- Parent whose four children have centers (0,0), (10,0), (20,0), (30,0). -/
def eRowParent : Element := .mk "div" ⟨0, 0, 30, 0⟩ (some 2) 15 [ptA, ptB, ptC, ptD]

/-- Parent whose three children have centers (0,0), (0,10), (0,20). -/
def eColParent : Element := .mk "div" ⟨0, 0, 0, 20⟩ (some 2) 16 [ptA, ptE, ptF]

/-- Concrete image element with zero width (x2 equals x1) and height 20. -/
def eImgZero : Element := .mk "image" ⟨10, 10, 10, 30⟩ (some 5) 17 []

/-- Concrete image element carrying a child. -/
def eImgKid : Element := .mk "image" ⟨0, 0, 50, 40⟩ (some 6) 18 [eButton]

/-- Concrete input element carrying a child. -/
def eInputKid : Element := .mk "input" ⟨0, 0, 30, 10⟩ (some 7) 19 [eButton]

/-- Concrete section element carrying a child. -/
def eSection : Element := .mk "section" ⟨0, 0, 200, 100⟩ (some 8) 20 [eButton]

/-- An input-derived element whose class label happens to be root: not the
builder sentinel (nonzero box, a class id, a child). -/
def eRootLike : Element := .mk "root" ⟨10, 5, 40, 15⟩ (some 9) 21 [eButton]

/-- The tree built from the end-to-end scenario batch. -/
def TREE2 : Element :=
  .mk "root" ⟨0, 0, 0, 0⟩ none 0 [.mk "header" ⟨0, 0, 100, 20⟩ (some 4) 1 [eButton]]

/-- The tree built from the rejection scenario batch: the inverted box is a
direct child of the root, the button is nested under the header. -/
def TREE4 : Element :=
  .mk "root" ⟨0, 0, 0, 0⟩ none 0
    [eInvalidBox, .mk "header" ⟨0, 0, 100, 20⟩ (some 4) 1 [eButton]]

/-- The tree built from the batch eA2, eE, eA1: a three-deep chain. -/
def TREE6 : Element :=
  .mk "root" ⟨0, 0, 0, 0⟩ none 0
    [.mk "div" ⟨0, 0, 100, 100⟩ (some 1) 4
      [.mk "div" ⟨60, 40, 120, 80⟩ (some 1) 5 [eE]]]

/-- The tree TREE6 after re-inserting eE: the original copy stays nested
three levels deep and a second copy appears as a direct root child. -/
def TREE6D : Element :=
  .mk "root" ⟨0, 0, 0, 0⟩ none 0
    [.mk "div" ⟨0, 0, 100, 100⟩ (some 1) 4
      [.mk "div" ⟨60, 40, 120, 80⟩ (some 1) 5 [eE]], eE]

/-- The tree built from the single-button batch. -/
def TREE8 : Element := .mk "root" ⟨0, 0, 0, 0⟩ none 0 [eButton]

/-- The markup of the single button element at indentation 0. -/
def BTN_HTML : String :=
  "<button class=\x27relative px-4 py-2 bg-blue-500 text-white rounded hover:bg-blue-600\x27 data-id=\x270\x27 data-type=\x27button\x27>Click me\n</button>\n"

/-- A nonzero own area makes the overlap computation total. -/
lemma overlap_some_of_area_ne (t r : BBox) (h : BBox.area t ≠ 0) :
    ∃ q, BBox.overlap_ratio t r = some q := by
  simp only [BBox.overlap_ratio]
  by_cases hclip : min t.x2 r.x2 < max t.x1 r.x1 ∨ min t.y2 r.y2 < max t.y1 r.y1
  · exact ⟨0, by rw [if_pos hclip]⟩
  · unfold BBox.area at h
    exact ⟨_, by rw [if_neg hclip, if_neg h]⟩

/-- When the overlap computation is total, contains returns the boolean
conjunction of the three conditions. -/
lemma contains_eq_some (A B : BBox) (q : ℚ) (hq : BBox.overlap_ratio B A = some q) :
    BBox.contains A B =
      some ((decide ((A.x1 : ℚ) ≤ Rat.divInt (B.x1 + B.x2) 2) &&
          decide (Rat.divInt (B.x1 + B.x2) 2 ≤ (A.x2 : ℚ)) &&
          decide ((A.y1 : ℚ) ≤ Rat.divInt (B.y1 + B.y2) 2) &&
          decide (Rat.divInt (B.y1 + B.y2) 2 ≤ (A.y2 : ℚ))) &&
        decide ((A.x2 - A.x1) * (A.y2 - A.y1) > (B.x2 - B.x1) * (B.y2 - B.y1)) &&
        decide (q > Rat.divInt 3 5)) := by
  simp only [BBox.contains, hq]

/-- contains yields True exactly when the three conditions hold. -/
lemma contains_true_iff (A B : BBox) :
    BBox.contains A B = some true ↔
      center_within A B ∧ BBox.area A > BBox.area B ∧
        ∃ q : ℚ, BBox.overlap_ratio B A = some q ∧ q > Rat.divInt 3 5 := by
  cases hq : BBox.overlap_ratio B A with
  | none =>
      simp only [BBox.contains, hq]
      simp
  | some q =>
      rw [contains_eq_some A B q hq]
      constructor
      · intro h
        have hb := Option.some_inj.mp h
        simp only [Bool.and_eq_true, decide_eq_true_eq] at hb
        obtain ⟨⟨⟨⟨⟨h1, h2⟩, h3⟩, h4⟩, h5⟩, h6⟩ := hb
        refine ⟨⟨h1, h2, h3, h4⟩, ?_, q, rfl, h6⟩
        unfold BBox.area
        exact h5
      · rintro ⟨hc, h5, q2, hq2, h6⟩
        have hqq : q = q2 := Option.some_inj.mp (hq ▸ hq2)
        obtain rfl := hqq
        obtain ⟨h1, h2, h3, h4⟩ := hc
        unfold BBox.area at h5
        simp only [Option.some_inj, Bool.and_eq_true, decide_eq_true_eq]
        exact ⟨⟨⟨⟨⟨h1, h2⟩, h3⟩, h4⟩, h5⟩, h6⟩

/-- A boolean wrapped in some equals some false exactly when it does not
equal some true. -/
lemma option_bool_false_iff (b : Bool) : some b = some false ↔ ¬(some b = some true) := by
  cases b <;> simp

/-- With a nonzero child area, contains yields False exactly when some
condition fails. -/
lemma contains_false_iff (A B : BBox) (hB : BBox.area B ≠ 0) :
    BBox.contains A B = some false ↔
      ¬(center_within A B ∧ BBox.area A > BBox.area B ∧
        ∃ q : ℚ, BBox.overlap_ratio B A = some q ∧ q > Rat.divInt 3 5) := by
  rw [← contains_true_iff A B]
  obtain ⟨q, hq⟩ := overlap_some_of_area_ne B A hB
  rw [contains_eq_some A B q hq, option_bool_false_iff]

/-- C1: for all boxes A and B, contains(A, B) returns True exactly when (1)
the center of B lies in the closed rectangle of A, (2) the area of A
strictly exceeds the area of B, and (3) the overlap computation of B inside
A yields a fraction above 3/5; and, as long as the area of B is nonzero,
making any one of the three conditions fail makes contains return False.
(The nonzero-area proviso is forced: with a zero-area B touching A the
overlap computation faults and contains propagates the fault instead of
returning False, see the counterexample.) -/
theorem contains_characterization (A B : BBox) :
    (BBox.contains A B = some true ↔
      center_within A B ∧ BBox.area A > BBox.area B ∧
        ∃ q : ℚ, BBox.overlap_ratio B A = some q ∧ q > Rat.divInt 3 5) ∧
    (BBox.area B ≠ 0 →
      (BBox.contains A B = some false ↔
        ¬(center_within A B ∧ BBox.area A > BBox.area B ∧
          ∃ q : ℚ, BBox.overlap_ratio B A = some q ∧ q > Rat.divInt 3 5))) :=
  ⟨contains_true_iff A B, fun hB => contains_false_iff A B hB⟩

/-- C1 witness: the characterization applied to the concrete boxes
A = (0,0,10,10) and B = (2,2,8,8), whose area 36 is nonzero. -/
theorem contains_characterization_witness :
    BBox.contains ⟨0, 0, 10, 10⟩ ⟨2, 2, 8, 8⟩ = some false ↔
      ¬(center_within ⟨0, 0, 10, 10⟩ ⟨2, 2, 8, 8⟩ ∧
        BBox.area ⟨0, 0, 10, 10⟩ > BBox.area ⟨2, 2, 8, 8⟩ ∧
        ∃ q : ℚ, BBox.overlap_ratio ⟨2, 2, 8, 8⟩ ⟨0, 0, 10, 10⟩ = some q ∧
          q > Rat.divInt 3 5) :=
  (contains_characterization ⟨0, 0, 10, 10⟩ ⟨2, 2, 8, 8⟩).2 (by decide)

/-- C1 counterexample: with A = (0,0,10,10) and the zero-area box
B = (5,5,5,5), conditions (1) and (2) hold while condition (3) does not,
yet contains(A, B) does not return False: it propagates a division fault
(none), so failing one condition does not always yield False. -/
theorem contains_zero_area_cex :
    center_within ⟨0, 0, 10, 10⟩ ⟨5, 5, 5, 5⟩ ∧
    BBox.area (⟨0, 0, 10, 10⟩ : BBox) > BBox.area (⟨5, 5, 5, 5⟩ : BBox) ∧
    BBox.contains ⟨0, 0, 10, 10⟩ ⟨5, 5, 5, 5⟩ = none := by
  refine ⟨by decide, by decide, by decide⟩

/-- C3: the overlap computation is not guarded for a zero-area target box:
on the concrete zero-area target (5,5,5,5) against the overlapping
reference (0,0,10,10) it faults (none, modeling ZeroDivisionError) instead
of returning 0; in general it faults exactly when the target area is zero
and the clipped rectangle is not judged empty. -/
theorem overlap_ratio_unguarded :
    BBox.overlap_ratio ⟨5, 5, 5, 5⟩ ⟨0, 0, 10, 10⟩ = none ∧
    ∀ t r : BBox, BBox.overlap_ratio t r = none ↔
      (BBox.area t = 0 ∧
        ¬(min t.x2 r.x2 < max t.x1 r.x1 ∨ min t.y2 r.y2 < max t.y1 r.y1)) := by
  refine ⟨by decide, fun t r => ?_⟩
  simp only [BBox.overlap_ratio]
  unfold BBox.area
  by_cases hclip : min t.x2 r.x2 < max t.x1 r.x1 ∨ min t.y2 r.y2 < max t.y1 r.y1
  · rw [if_pos hclip]
    constructor
    · intro h
      exact Option.noConfusion h
    · rintro ⟨-, hn⟩
      exact absurd hclip hn
  · rw [if_neg hclip]
    by_cases ha : (t.x2 - t.x1) * (t.y2 - t.y1) = 0
    · rw [if_pos ha]
      exact iff_of_true rfl ⟨ha, hclip⟩
    · rw [if_neg ha]
      exact iff_of_false (Option.some_ne_none _) fun hc => ha hc.1

/-- Every tree has at least one node. -/
lemma esize_pos (e : Element) : 0 < esize e := by
  cases e with
  | mk nm bb ci i cs =>
    unfold esize
    omega

/-- A member of a forest is not bigger than the forest. -/
lemma esize_le_of_mem {c : Element} : ∀ {cs : List Element}, c ∈ cs → esize c ≤ esizeL cs := by
  intro cs h
  induction cs with
  | nil => cases h
  | cons a t ih =>
    unfold esizeL
    rcases List.mem_cons.mp h with rfl | hm
    · omega
    · have := ih hm
      omega

/-- A child tree is strictly smaller than its parent tree. -/
lemma esize_lt_children {c : Element} {nm : String} {bb : BBox} {ci : Option Int} {i : Nat}
    {cs : List Element} (h : c ∈ cs) : esize c < esize (Element.mk nm bb ci i cs) := by
  have h1 := esize_le_of_mem h
  have h2 : esize (Element.mk nm bb ci i cs) = 1 + esizeL cs := rfl
  omega

/-- The identity traversal is independent of the fuel once the fuel covers
the tree size. -/
lemma idListF_stable : ∀ (n : Nat) (e : Element), esize e ≤ n → idListF n e = idList e := by
  intro n
  induction n using Nat.strong_induction_on with
  | _ n ih =>
    intro e he
    cases e with
    | mk nm bb ci i cs =>
      have hp : 0 < esize (Element.mk nm bb ci i cs) := esize_pos _
      obtain ⟨m, rfl⟩ : ∃ m, n = m + 1 := ⟨n - 1, by omega⟩
      obtain ⟨s, hs⟩ : ∃ s, esize (Element.mk nm bb ci i cs) = s + 1 :=
        ⟨esize (Element.mk nm bb ci i cs) - 1, by omega⟩
      unfold idList
      rw [hs]
      simp only [idListF]
      congr 1
      congr 1
      apply List.map_congr_left
      intro c hc
      have hlt : esize c < esize (Element.mk nm bb ci i cs) := esize_lt_children hc
      rw [ih m (by omega) c (by omega), ih s (by omega) c (by omega)]

/-- Recursion equation of the identity traversal. -/
lemma idList_mk (nm : String) (bb : BBox) (ci : Option Int) (i : Nat) (cs : List Element) :
    idList (Element.mk nm bb ci i cs) = i :: idsL cs := by
  unfold idList idsL
  obtain ⟨s, hs⟩ : ∃ s, esize (Element.mk nm bb ci i cs) = s + 1 :=
    ⟨esize (Element.mk nm bb ci i cs) - 1, by have := esize_pos (Element.mk nm bb ci i cs); omega⟩
  rw [hs]
  simp only [idListF]
  congr 1
  congr 1
  apply List.map_congr_left
  intro c hc
  have hlt : esize c < esize (Element.mk nm bb ci i cs) := esize_lt_children hc
  exact idListF_stable s c (by omega)

/-- Multiset form of the identity recursion equation. -/
lemma mIds_mk (nm : String) (bb : BBox) (ci : Option Int) (i : Nat) (cs : List Element) :
    mIds (Element.mk nm bb ci i cs) = i ::ₘ mIdsL cs := by
  unfold mIds mIdsL
  rw [idList_mk]
  rfl

/-- The empty forest has no identities. -/
lemma mIdsL_nil : mIdsL [] = 0 := rfl

/-- Identities of a forest extended at the front. -/
lemma mIdsL_cons (c : Element) (l : List Element) : mIdsL (c :: l) = mIds c + mIdsL l := by
  unfold mIdsL mIds idsL
  rw [List.map_cons, List.flatten_cons]
  rfl

/-- Identities of a concatenation of forests. -/
lemma mIdsL_append (l1 l2 : List Element) : mIdsL (l1 ++ l2) = mIdsL l1 + mIdsL l2 := by
  induction l1 with
  | nil => rw [List.nil_append, mIdsL_nil, zero_add]
  | cons a t ih => rw [List.cons_append, mIdsL_cons, mIdsL_cons, ih, add_assoc]

/-- The identity of the node itself occurs in its identity multiset. -/
lemma id_mem_mIds (e : Element) : e.id ∈ mIds e := by
  cases e with
  | mk nm bb ci i cs =>
    rw [mIds_mk]
    exact Multiset.mem_cons_self _ _

/-- The identities of a member tree are among the identities of the forest. -/
lemma mIds_le_of_mem {c : Element} : ∀ {l : List Element}, c ∈ l → mIds c ≤ mIdsL l := by
  intro l h
  induction l with
  | nil => cases h
  | cons a t ih =>
    rw [mIdsL_cons]
    rcases List.mem_cons.mp h with rfl | hm
    · exact Multiset.le_add_right _ _
    · exact le_trans (ih hm) (Multiset.le_add_left _ _)

/-- The first add_child loop preserves the identities of the children. -/
lemma optPartition_ids (b : BBox) : ∀ (l mv kp : List Element),
    optPartition b l = some (mv, kp) → mIdsL mv + mIdsL kp = mIdsL l := by
  intro l
  induction l with
  | nil =>
    intro mv kp h
    simp only [optPartition, Option.some_inj, Prod.mk.injEq] at h
    obtain ⟨rfl, rfl⟩ := h
    rw [mIdsL_nil, zero_add]
  | cons c rest ih =>
    intro mv kp h
    rw [optPartition] at h
    cases hc : BBox.contains b c.bbox with
    | none => rw [hc] at h; simp at h
    | some tv =>
      rw [hc] at h
      cases hr : optPartition b rest with
      | none => rw [hr] at h; cases tv <;> simp at h
      | some p =>
        obtain ⟨m0, k0⟩ := p
        rw [hr] at h
        cases tv <;> simp only [Option.map_some', Option.some_inj, Prod.mk.injEq] at h <;>
          obtain ⟨rfl, rfl⟩ := h
        · rw [mIdsL_cons, mIdsL_cons, ← ih m0 k0 hr]
          abel
        · rw [mIdsL_cons, mIdsL_cons, ← ih m0 k0 hr]
          abel

/-- The delegation scan splits the children list around the hit. -/
lemma scanDelegate_split (b : BBox) : ∀ (l pre : List Element) (x : Element) (suf : List Element),
    scanDelegate b l = some (some (pre, x, suf)) → l = pre ++ x :: suf := by
  intro l
  induction l with
  | nil => intro pre x suf h; simp [scanDelegate] at h
  | cons c rest ih =>
    intro pre x suf h
    rw [scanDelegate] at h
    cases hc : BBox.contains c.bbox b with
    | none => rw [hc] at h; simp at h
    | some tv =>
      rw [hc] at h
      cases tv with
      | true =>
        simp only [Option.some_inj, Prod.mk.injEq] at h
        obtain ⟨rfl, rfl, rfl⟩ := h
        rw [List.nil_append]
      | false =>
        cases hr : scanDelegate b rest with
        | none => rw [hr] at h; simp at h
        | some o =>
          rw [hr] at h
          cases o with
          | none => simp at h
          | some tr =>
            obtain ⟨p0, x0, s0⟩ := tr
            simp only [Option.map_some', Option.some_inj, Prod.mk.injEq] at h
            obtain ⟨rfl, rfl, rfl⟩ := h
            rw [ih p0 x0 s0 hr, List.cons_append]

/-- Under distinct identities, the direct-membership test of add_child is
false. -/
lemma any_id_false_of_nodup {nm : String} {bb : BBox} {ci : Option Int} {i : Nat}
    {cs : List Element} {c : Element}
    (hnd : (mIds (Element.mk nm bb ci i cs) + mIds c).Nodup) :
    cs.any (fun x => x.id == c.id) = false := by
  by_contra hx
  rw [Bool.not_eq_false, List.any_eq_true] at hx
  obtain ⟨x, hxm, hxe⟩ := hx
  rw [beq_iff_eq] at hxe
  have h1 : c.id ∈ mIds (Element.mk nm bb ci i cs) := by
    rw [mIds_mk]
    exact Multiset.mem_cons_of_mem
      (hxe ▸ Multiset.mem_of_le (mIds_le_of_mem hxm) (id_mem_mIds x))
  have h2 : c.id ∈ mIds c := id_mem_mIds c
  have hc1 : 1 ≤ Multiset.count c.id (mIds (Element.mk nm bb ci i cs)) :=
    Multiset.one_le_count_iff_mem.mpr h1
  have hc2 : 1 ≤ Multiset.count c.id (mIds c) := Multiset.one_le_count_iff_mem.mpr h2
  have hcnt := Multiset.nodup_iff_count_le_one.mp hnd c.id
  rw [Multiset.count_add] at hcnt
  omega

/-- The relocation fold of add_child accumulates exactly the moved
identities, for any fixed fuel whose insertions already preserve
identities. -/
lemma foldlM_addChildF_ids (n : Nat)
    (IH : ∀ s c r, addChildF n s c = some r → (mIds s + mIds c).Nodup →
      mIds r = mIds s + mIds c) :
    ∀ (mv : List Element) (acc res : Element),
      mv.foldlM (addChildF n) acc = some res →
      (mIds acc + mIdsL mv).Nodup → mIds res = mIds acc + mIdsL mv := by
  intro mv
  induction mv with
  | nil =>
    intro acc res h hnd
    have h2 : acc = res := Option.some_inj.mp h
    subst h2
    rw [mIdsL_nil, add_zero]
  | cons m tl ih =>
    intro acc res h hnd
    rw [List.foldlM_cons] at h
    cases hacc : addChildF n acc m with
    | none => rw [hacc] at h; simp at h
    | some acc2 =>
      rw [hacc] at h
      have h2 : tl.foldlM (addChildF n) acc2 = some res := h
      have hnd1 : (mIds acc + mIds m).Nodup := by
        apply Multiset.nodup_of_le _ hnd
        rw [mIdsL_cons, ← add_assoc]
        exact Multiset.le_add_right _ _
      have hacc2 : mIds acc2 = mIds acc + mIds m := IH acc m acc2 hacc hnd1
      have hnd2 : (mIds acc2 + mIdsL tl).Nodup := by
        rw [hacc2, add_assoc, ← mIdsL_cons]
        exact hnd
      rw [ih acc2 res h2 hnd2, hacc2, mIdsL_cons]
      abel

/-- Identity preservation of add_child: a successful insertion with
pairwise distinct identities yields a tree holding exactly the identities
of the two inputs, at any fuel. -/
theorem addChildF_ids : ∀ (fuel : Nat) (s c r : Element),
    addChildF fuel s c = some r → (mIds s + mIds c).Nodup →
    mIds r = mIds s + mIds c := by
  intro fuel
  induction fuel with
  | zero => intro s c r h _; simp [addChildF] at h
  | succ n ih =>
    intro s c r h hnd
    obtain ⟨nm, bb, ci, i, cs⟩ := s
    rw [addChildF] at h
    rw [any_id_false_of_nodup hnd] at h
    simp only [Bool.false_eq_true, if_false] at h
    split at h
    · exact absurd h (by simp)
    · rename_i mv kp hpart
      have hms : mIdsL mv + mIdsL kp = mIdsL cs := optPartition_ids c.bbox cs mv kp hpart
      split at h
      · exact absurd h (by simp)
      · rename_i c1 hfold
        have hnd1 : (mIds c + mIdsL mv).Nodup := by
          apply Multiset.nodup_of_le _ hnd
          rw [mIds_mk, ← hms, ← Multiset.singleton_add]
          calc mIds c + mIdsL mv
              ≤ mIds c + mIdsL mv + ({i} + mIdsL kp) := Multiset.le_add_right _ _
            _ = {i} + (mIdsL mv + mIdsL kp) + mIds c := by abel
        have hc1 : mIds c1 = mIds c + mIdsL mv := foldlM_addChildF_ids n ih mv c c1 hfold hnd1
        split at h
        · exact absurd h (by simp)
        · rename_i hscan
          simp only [Option.some_inj] at h
          subst h
          rw [mIds_mk, mIdsL_append, mIdsL_cons, mIdsL_nil, hc1, mIds_mk, ← hms,
            ← Multiset.singleton_add, ← Multiset.singleton_add]
          abel
        · rename_i pre x suf hscan
          have hkp : kp = pre ++ x :: suf := scanDelegate_split c.bbox kp pre x suf hscan
          cases haddx : addChildF n x c1 with
          | none => rw [haddx] at h; simp at h
          | some x1 =>
            rw [haddx] at h
            simp only [Option.map_some', Option.some_inj] at h
            subst h
            have hndx : (mIds x + mIds c1).Nodup := by
              rw [hc1]
              apply Multiset.nodup_of_le _ hnd
              rw [mIds_mk, ← hms, hkp, mIdsL_append, mIdsL_cons, ← Multiset.singleton_add]
              calc mIds x + (mIds c + mIdsL mv)
                  ≤ mIds x + (mIds c + mIdsL mv) + ({i} + mIdsL pre + mIdsL suf) :=
                    Multiset.le_add_right _ _
                _ = {i} + (mIdsL mv + (mIdsL pre + (mIds x + mIdsL suf))) + mIds c := by abel
            have hx1 : mIds x1 = mIds x + mIds c1 := ih x c1 x1 haddx hndx
            rw [mIds_mk, mIdsL_append, mIdsL_cons, hx1, hc1, mIds_mk, ← hms, hkp,
              mIdsL_append, mIdsL_cons, ← Multiset.singleton_add, ← Multiset.singleton_add]
            abel

/-- Folding add_child over a batch accumulates exactly the batch
identities. -/
lemma foldlM_add_child_ids : ∀ (es : List Element) (acc t : Element),
    es.foldlM Element.add_child acc = some t →
    (mIds acc + mIdsL es).Nodup → mIds t = mIds acc + mIdsL es := by
  intro es
  induction es with
  | nil =>
    intro acc t h hnd
    have h2 : acc = t := Option.some_inj.mp h
    subst h2
    rw [mIdsL_nil, add_zero]
  | cons m tl ih =>
    intro acc t h hnd
    rw [List.foldlM_cons] at h
    cases hacc : Element.add_child acc m with
    | none => rw [hacc] at h; simp at h
    | some acc2 =>
      rw [hacc] at h
      have h2 : tl.foldlM Element.add_child acc2 = some t := h
      have hacc0 : addChildF (esize acc + esize m) acc m = some acc2 := hacc
      have hnd1 : (mIds acc + mIds m).Nodup := by
        apply Multiset.nodup_of_le _ hnd
        rw [mIdsL_cons, ← add_assoc]
        exact Multiset.le_add_right _ _
      have hacc2 : mIds acc2 = mIds acc + mIds m :=
        addChildF_ids (esize acc + esize m) acc m acc2 hacc0 hnd1
      have hnd2 : (mIds acc2 + mIdsL tl).Nodup := by
        rw [hacc2, add_assoc, ← mIdsL_cons]
        exact hnd
      rw [ih acc2 t h2 hnd2, hacc2, mIdsL_cons]
      abel

/-- C2: whenever the build completes on a batch of elements with pairwise
distinct identities (Python objects are distinct; the sentinel id 0 is
fresh), the resulting tree holds the sentinel and every input element
exactly once - the identity list of the tree is a permutation of the
inputs plus the sentinel, and it has no duplicate.  In the tree model this
is exactly tree well-formedness: an identity occurring once in the whole
tree can neither sit below itself nor be the child of two parents. -/
theorem create_tree_wf (elements : List Element) (t : Element)
    (hbuild : create_tree elements = some t)
    (hids : (0 :: idsL elements).Nodup) :
    (idList t).Perm (0 :: idsL elements) ∧ (idList t).Nodup := by
  have hb : elements.foldlM Element.add_child (Element.mk "root" ⟨0, 0, 0, 0⟩ none 0 []) =
      some t := hbuild
  have hnd : (mIds (Element.mk "root" ⟨0, 0, 0, 0⟩ none 0 []) + mIdsL elements).Nodup := by
    rw [mIds_mk, mIdsL_nil, Multiset.cons_zero, Multiset.singleton_add]
    exact Multiset.coe_nodup.mpr hids
  have hmain : mIds t = mIds (Element.mk "root" ⟨0, 0, 0, 0⟩ none 0 []) + mIdsL elements :=
    foldlM_add_child_ids elements _ t hb hnd
  have hperm : (idList t).Perm (0 :: idsL elements) := by
    rw [← Multiset.coe_eq_coe]
    show mIds t = ((0 :: idsL elements : List Nat) : Multiset Nat)
    rw [hmain, mIds_mk, mIdsL_nil, Multiset.cons_zero, Multiset.singleton_add]
    rfl
  exact ⟨hperm, hperm.symm.nodup hids⟩

/-- C2 witness: the well-formedness theorem applied to the end-to-end
scenario batch of the spec (a header and a button), whose build succeeds
and whose identities 1 and 2 are distinct and nonzero. -/
theorem create_tree_wf_witness :
    (idList TREE2).Perm (0 :: idsL [eHeader, eButton]) ∧ (idList TREE2).Nodup :=
  create_tree_wf [eHeader, eButton] TREE2 rfl (by decide)

/-- C4 counterexample: the element with the inverted box (50,50,10,10) is
not rejected by the builder: the batch of the rejection scenario builds a
tree in which that element occurs (as a direct root child), so it is not
excluded from the resulting tree. -/
theorem degenerate_box_not_rejected_cex :
    create_tree [eInvalidBox, eHeader, eButton] = some TREE4 ∧
    (idList TREE4).count 3 = 1 := ⟨rfl, by decide⟩

/-- C4 amended: the builder performs no validation at all: the inverted box
(50,50,10,10) has computed area 1600 (two negative factors), the element
carrying it is inserted like any other, and the valid siblings are still
placed correctly (the button nested under the header); nothing is rejected
or reported. -/
theorem builder_inserts_all :
    BBox.area ⟨50, 50, 10, 10⟩ = 1600 ∧
    create_tree [eInvalidBox, eHeader, eButton] = some TREE4 ∧
    idList TREE4 = [0, 3, 1, 2] := ⟨by decide, rfl, by decide⟩

/-- C6 amended: re-inserting an element that is already a direct child (by
identity) of the node is a no-op, as the first step of add_child checks
exactly direct membership.  (For an element nested deeper the re-insertion
can duplicate it, see the counterexample.) -/
theorem add_child_direct_idempotent (self child : Element)
    (h : self.children.any (fun c => c.id == child.id) = true) :
    Element.add_child self child = some self := by
  obtain ⟨nm, bb, ci, i, cs⟩ := self
  simp only [Element.children] at h
  have hsz : esize (Element.mk nm bb ci i cs) + esize child = esizeL cs + esize child + 1 := by
    unfold esize
    omega
  show addChildF (esize (Element.mk nm bb ci i cs) + esize child) _ _ = _
  rw [hsz, addChildF, if_pos h]

/-- C6 witness: the no-op applied to the concrete tree with the button as a
direct root child. -/
theorem add_child_direct_idempotent_witness :
    Element.add_child TREE8 eButton = some TREE8 :=
  add_child_direct_idempotent TREE8 eButton (by decide)

/-- C6 counterexample: in the tree built from the batch eA2, eE, eA1 the
element eE sits three levels deep (root, eA1, eA2, eE); re-inserting the
very same element does not leave the tree unchanged: no direct root child
of the tree contains eE (its center lies outside eA1), so eE is appended
as a second copy, and its identity 6 then occurs twice. -/
theorem reinsert_duplicates_cex :
    create_tree [eA2, eE, eA1] = some TREE6 ∧
    (idList TREE6).count 6 = 1 ∧
    Element.add_child TREE6 eE = some TREE6D ∧
    (idList TREE6D).count 6 = 2 := ⟨rfl, by decide, rfl, by decide⟩

/-- A population variance is never negative. -/
lemma listVar_nonneg (xs : List ℚ) : 0 ≤ listVar xs := by
  unfold listVar
  apply div_nonneg
  · apply List.sum_nonneg
    intro x hx
    obtain ⟨y, hy, rfl⟩ := List.mem_map.mp hx
    exact mul_self_nonneg _
  · exact_mod_cast Nat.zero_le _

/-- The variance of a single value is zero. -/
lemma listVar_singleton (q : ℚ) : listVar [q] = 0 := by
  unfold listVar listMean
  simp

/-- Without children the direction is flex-col. -/
lemma dfd_nil (e : Element) (h : e.children = []) :
    determine_flex_direction e = "flex-col" := by
  unfold determine_flex_direction
  rw [h]
  rfl

/-- With a single child both variances are zero and the tie resolves to
flex-col. -/
lemma dfd_singleton (e c : Element) (h : e.children = [c]) :
    determine_flex_direction e = "flex-col" := by
  unfold determine_flex_direction
  rw [h]
  simp [listVar_singleton]

/-- Comparing standard deviations is comparing variances. -/
lemma sqrt_listVar_lt_iff (a b : List ℚ) :
    Real.sqrt ((listVar a : ℝ)) < Real.sqrt ((listVar b : ℝ)) ↔ listVar a < listVar b := by
  constructor
  · intro h
    by_contra hle
    push_neg at hle
    have h2 : Real.sqrt ((listVar b : ℝ)) ≤ Real.sqrt ((listVar a : ℝ)) :=
      Real.sqrt_le_sqrt (by exact_mod_cast hle)
    linarith
  · intro h
    exact Real.sqrt_lt_sqrt (by exact_mod_cast listVar_nonneg a) (by exact_mod_cast h)

/-- The direction decision stated over the rational variances. -/
lemma dfd_row_iff_var (e : Element) :
    determine_flex_direction e = "flex-row" ↔
      e.children ≠ [] ∧
        listVar (e.children.map center_y) < listVar (e.children.map center_x) := by
  unfold determine_flex_direction
  by_cases hnil : e.children.isEmpty
  · rw [if_pos hnil]
    rw [List.isEmpty_iff] at hnil
    simp [hnil]
  · rw [if_neg hnil]
    rw [List.isEmpty_iff] at hnil
    have hne : e.children ≠ [] := hnil
    by_cases hlt : listVar (e.children.map center_x) > listVar (e.children.map center_y)
    · rw [if_pos hlt]
      exact iff_of_true rfl ⟨hne, hlt⟩
    · rw [if_neg hlt]
      refine iff_of_false (by decide) ?_
      rintro ⟨-, hl⟩
      exact hlt hl

/-- The direction is always one of the two strings. -/
lemma dfd_row_or_col (e : Element) :
    determine_flex_direction e = "flex-row" ∨ determine_flex_direction e = "flex-col" := by
  unfold determine_flex_direction
  split_ifs <;> simp

/-- C5: the direction classification returns flex-row exactly when the
population standard deviation of the x centers of the children strictly
exceeds that of the y centers, and flex-col otherwise; in particular a
single child always yields flex-col (both deviations are zero and the tie
resolves to flex-col), four children with centers (0,0), (10,0), (20,0),
(30,0) yield flex-row, and three children with centers (0,0), (0,10),
(0,20) yield flex-col.  The standard deviation of the centers is the
square root of the population variance listVar. -/
theorem direction_std_rule :
    (∀ e : Element,
      (determine_flex_direction e = "flex-row" ↔
        e.children ≠ [] ∧
          Real.sqrt ((listVar (e.children.map center_y) : ℝ)) <
            Real.sqrt ((listVar (e.children.map center_x) : ℝ))) ∧
      (determine_flex_direction e = "flex-col" ↔
        ¬(e.children ≠ [] ∧
          Real.sqrt ((listVar (e.children.map center_y) : ℝ)) <
            Real.sqrt ((listVar (e.children.map center_x) : ℝ))))) ∧
    (∀ e c : Element, e.children = [c] → determine_flex_direction e = "flex-col") ∧
    determine_flex_direction eRowParent = "flex-row" ∧
    determine_flex_direction eColParent = "flex-col" := by
  have hrow : ∀ e : Element, determine_flex_direction e = "flex-row" ↔
      e.children ≠ [] ∧
        Real.sqrt ((listVar (e.children.map center_y) : ℝ)) <
          Real.sqrt ((listVar (e.children.map center_x) : ℝ)) := by
    intro e
    rw [dfd_row_iff_var]
    exact and_congr_right fun _ => (sqrt_listVar_lt_iff _ _).symm
  refine ⟨fun e => ⟨hrow e, ?_⟩, fun e c h => dfd_singleton e c h, ?_, ?_⟩
  · constructor
    · intro hcol hcond
      have h2 := (hrow e).mpr hcond
      rw [hcol] at h2
      exact absurd h2 (by decide)
    · intro hncond
      rcases dfd_row_or_col e with h2 | h2
      · exact absurd ((hrow e).mp h2) hncond
      · exact h2
  · have hlt : listVar (eRowParent.children.map center_x) >
        listVar (eRowParent.children.map center_y) := by
      norm_num [eRowParent, ptA, ptB, ptC, ptD, Element.children, center_x, center_y,
        Element.bbox, listVar, listMean, Rat.divInt_eq_div]
    unfold determine_flex_direction
    rw [if_neg (by decide), if_pos hlt]
  · have hnlt : ¬(listVar (eColParent.children.map center_x) >
        listVar (eColParent.children.map center_y)) := by
      norm_num [eColParent, ptA, ptE, ptF, Element.children, center_x, center_y,
        Element.bbox, listVar, listMean, Rat.divInt_eq_div]
    unfold determine_flex_direction
    rw [if_neg (by decide), if_neg hnlt]

/-- C5 witness: the single-child tie rule applied to the concrete tree with
the button as only child. -/
theorem direction_std_rule_witness :
    determine_flex_direction TREE8 = "flex-col" :=
  direction_std_rule.2.1 TREE8 eButton rfl

/-- Membership in a stable insertion comes from the new element or the
old list. -/
lemma mem_insertSorted {key : Element → Int} {x a : Element} :
    ∀ {l : List Element}, a ∈ insertSorted key x l → a = x ∨ a ∈ l := by
  intro l h
  induction l with
  | nil =>
    rw [insertSorted] at h
    rcases List.mem_cons.mp h with rfl | h2
    · exact Or.inl rfl
    · cases h2
  | cons y ys ih =>
    rw [insertSorted] at h
    by_cases hk : key x < key y
    · rw [if_pos hk] at h
      rcases List.mem_cons.mp h with rfl | h2
      · exact Or.inl rfl
      · exact Or.inr h2
    · rw [if_neg hk] at h
      rcases List.mem_cons.mp h with rfl | h2
      · exact Or.inr (List.mem_cons_self _ _)
      · rcases ih h2 with h3 | h3
        · exact Or.inl h3
        · exact Or.inr (List.mem_cons_of_mem _ h3)

/-- Membership after the sorting fold comes from the seed or the list. -/
lemma mem_sortByKey_aux {key : Element → Int} {a : Element} :
    ∀ (l acc : List Element),
      a ∈ l.foldl (fun acc x => insertSorted key x acc) acc → a ∈ acc ∨ a ∈ l := by
  intro l
  induction l with
  | nil => intro acc h; exact Or.inl h
  | cons x t ih =>
    intro acc h
    rw [List.foldl_cons] at h
    rcases ih (insertSorted key x acc) h with h2 | h2
    · rcases mem_insertSorted h2 with rfl | h3
      · exact Or.inr (List.mem_cons_self _ _)
      · exact Or.inl h3
    · exact Or.inr (List.mem_cons_of_mem _ h2)

/-- The ordered children are children. -/
lemma mem_get_children_order {o : String} {e a : Element} :
    a ∈ get_children_order o e → a ∈ e.children := by
  intro h
  unfold get_children_order at h
  split at h <;>
  · unfold sortByKey at h
    rcases mem_sortByKey_aux _ _ h with h2 | h2
    · cases h2
    · exact h2

/-- The renderer is independent of the fuel once the fuel covers the tree
size. -/
lemma renderF_stable : ∀ (n : Nat) (e : Element) (ind : Nat),
    esize e ≤ n → renderF n e ind = generate_element_html e ind := by
  intro n
  induction n using Nat.strong_induction_on with
  | _ n ih =>
    intro e ind he
    cases e with
    | mk nm bb ci i cs =>
      have hp : 0 < esize (Element.mk nm bb ci i cs) := esize_pos _
      obtain ⟨m, rfl⟩ : ∃ m, n = m + 1 := ⟨n - 1, by omega⟩
      obtain ⟨s, hs⟩ : ∃ s, esize (Element.mk nm bb ci i cs) = s + 1 :=
        ⟨esize (Element.mk nm bb ci i cs) - 1, by omega⟩
      have hchild : ∀ c ∈ get_children_order
          (determine_flex_direction (Element.mk nm bb ci i cs)) (Element.mk nm bb ci i cs),
          ∀ j : Nat, renderF m c j = renderF s c j := by
        intro c hc j
        have hmem : c ∈ cs := mem_get_children_order hc
        have hlt : esize c < esize (Element.mk nm bb ci i cs) := esize_lt_children hmem
        rw [ih m (by omega) c j (by omega), ih s (by omega) c j (by omega)]
      unfold generate_element_html
      rw [hs]
      simp only [renderF]
      by_cases hroot : ((Element.mk nm bb ci i cs).class_name == "root") = true
      · rw [if_pos hroot, if_pos hroot]
        congr 1
        apply List.map_congr_left
        intro c hc
        exact hchild c hc ind
      · rw [if_neg hroot, if_neg hroot]
        by_cases hsc : (Element.mk nm bb ci i cs).class_name ∉ (["image", "input"] : List String)
        · rw [if_pos hsc, if_pos hsc]
          have hj : String.join ((get_children_order
                (determine_flex_direction (Element.mk nm bb ci i cs))
                (Element.mk nm bb ci i cs)).map fun child => renderF m child (ind + 1)) =
              String.join ((get_children_order
                (determine_flex_direction (Element.mk nm bb ci i cs))
                (Element.mk nm bb ci i cs)).map fun child => renderF s child (ind + 1)) := by
            congr 1
            apply List.map_congr_left
            intro c hc
            exact hchild c hc (ind + 1)
          rw [hj]
        · rw [if_neg hsc, if_neg hsc]

/-- Rendering an element whose class label is the string root emits only
the markup of its ordered children, at the same indentation. -/
lemma render_root (e : Element) (h : e.class_name = "root") (ind : Nat) :
    generate_element_html e ind =
      String.join ((get_children_order (determine_flex_direction e) e).map
        fun child => generate_element_html child ind) := by
  cases e with
  | mk nm bb ci i cs =>
    obtain ⟨s, hs⟩ : ∃ s, esize (Element.mk nm bb ci i cs) = s + 1 :=
      ⟨esize (Element.mk nm bb ci i cs) - 1,
        by have := esize_pos (Element.mk nm bb ci i cs); omega⟩
    unfold generate_element_html
    rw [hs]
    simp only [renderF]
    rw [if_pos (beq_iff_eq.mpr h)]
    congr 1
    apply List.map_congr_left
    intro c hc
    have hmem : c ∈ cs := mem_get_children_order hc
    have hlt : esize c < esize (Element.mk nm bb ci i cs) := esize_lt_children hmem
    exact renderF_stable s c ind (by omega)

/-- Rendering a self-closing element (image or input) emits exactly its
opening line: no child markup and no closing tag. -/
lemma render_selfclosing (e : Element) (h : e.class_name = "image" ∨ e.class_name = "input")
    (ind : Nat) : generate_element_html e ind = opening_html e ind := by
  cases e with
  | mk nm bb ci i cs =>
    obtain ⟨s, hs⟩ : ∃ s, esize (Element.mk nm bb ci i cs) = s + 1 :=
      ⟨esize (Element.mk nm bb ci i cs) - 1,
        by have := esize_pos (Element.mk nm bb ci i cs); omega⟩
    unfold generate_element_html
    rw [hs]
    simp only [renderF]
    have hr : ¬(((Element.mk nm bb ci i cs).class_name == "root") = true) := by
      rcases h with h | h <;> simp [h]
    rw [if_neg hr]
    have hsc : ¬((Element.mk nm bb ci i cs).class_name ∉ (["image", "input"] : List String)) := by
      rcases h with h | h <;> simp [h]
    rw [if_neg hsc]

/-- Rendering any other non-root element emits the opening line, then the
ordered children one level deeper, then the closing tag. -/
lemma render_container (e : Element) (hr : e.class_name ≠ "root")
    (hsc : e.class_name ∉ (["image", "input"] : List String)) (ind : Nat) :
    generate_element_html e ind =
      opening_html e ind ++
        String.join ((get_children_order (determine_flex_direction e) e).map
          fun child => generate_element_html child (ind + 1)) ++
        indentStr ind ++ "</" ++ get_element_tag e.class_name ++ ">\n" := by
  cases e with
  | mk nm bb ci i cs =>
    obtain ⟨s, hs⟩ : ∃ s, esize (Element.mk nm bb ci i cs) = s + 1 :=
      ⟨esize (Element.mk nm bb ci i cs) - 1,
        by have := esize_pos (Element.mk nm bb ci i cs); omega⟩
    unfold generate_element_html
    rw [hs]
    simp only [renderF]
    rw [if_neg (by simp [hr]), if_pos hsc]
    have hj : String.join ((get_children_order
          (determine_flex_direction (Element.mk nm bb ci i cs))
          (Element.mk nm bb ci i cs)).map fun child => renderF s child (ind + 1)) =
        String.join ((get_children_order
          (determine_flex_direction (Element.mk nm bb ci i cs))
          (Element.mk nm bb ci i cs)).map fun child => generate_element_html child (ind + 1)) := by
      congr 1
      apply List.map_congr_left
      intro c hc
      have hmem : c ∈ cs := mem_get_children_order hc
      have hlt : esize c < esize (Element.mk nm bb ci i cs) := esize_lt_children hmem
      exact renderF_stable s c (ind + 1) (by omega)
    rw [hj]
    rfl

/-- The opening line of a self-closing element does not depend on its
children. -/
lemma opening_html_children_irrelevant (nm : String) (bb : BBox) (ci : Option Int) (i : Nat)
    (cs : List Element) (ind : Nat) (h : nm = "image" ∨ nm = "input") :
    opening_html (Element.mk nm bb ci i cs) ind = opening_html (Element.mk nm bb ci i []) ind := by
  rcases h with rfl | rfl <;> rfl

/-- C7 amended: for every element of class image the renderer uses the box
width x2 - x1 and height y2 - y1 verbatim in the placeholder URL - there
is no minimum fallback for a degenerate dimension - and rendering is a
total function (it cannot crash). -/
theorem image_dims_verbatim (e : Element) (ind : Nat) (h : e.class_name = "image") :
    generate_element_html e ind =
      indentStr ind ++ "<" ++ "img" ++ " src=\x27https://picsum.photos/" ++
        toString (e.bbox.x2 - e.bbox.x1) ++ "/" ++ toString (e.bbox.y2 - e.bbox.y1) ++
        "?random=1\x27 alt=\x27Placeholder\x27 class=\x27" ++ "relative object-cover" ++
        "\x27 data-id=\x27" ++ classIdStr e.class_id ++ "\x27 data-type=\x27" ++ "image" ++
        "\x27>\n" := by
  cases e with
  | mk nm bb ci i cs =>
    have h2 : nm = "image" := h
    subst h2
    rw [render_selfclosing (Element.mk "image" bb ci i cs) (Or.inl rfl) ind]
    rfl

/-- C7 witness: the verbatim-dimension equation applied to the concrete
image element eImgKid at indentation 0. -/
theorem image_dims_verbatim_witness :
    generate_element_html eImgKid 0 =
      indentStr 0 ++ "<" ++ "img" ++ " src=\x27https://picsum.photos/" ++
        toString (eImgKid.bbox.x2 - eImgKid.bbox.x1) ++ "/" ++
        toString (eImgKid.bbox.y2 - eImgKid.bbox.y1) ++
        "?random=1\x27 alt=\x27Placeholder\x27 class=\x27" ++ "relative object-cover" ++
        "\x27 data-id=\x27" ++ classIdStr eImgKid.class_id ++ "\x27 data-type=\x27" ++
        "image" ++ "\x27>\n" :=
  image_dims_verbatim eImgKid 0 rfl

/-- C7 counterexample: the image element with box (10,10,10,30) has zero
width; its rendered markup embeds the dimension 0 verbatim in the URL
(picsum.photos/0/20), so no minimum fallback dimension is substituted. -/
theorem image_zero_dim_cex :
    generate_element_html eImgZero 0 =
      "<img src=\x27https://picsum.photos/0/20?random=1\x27 alt=\x27Placeholder\x27 class=\x27relative object-cover\x27 data-id=\x275\x27 data-type=\x27image\x27>\n" ∧
    hasSub (generate_element_html eImgZero 0).data ("/0/".data) = true := by
  constructor
  · rfl
  · decide

/-- C8: the sentinel root is never emitted as a tag: for any children, the
sentinel renders to exactly the joined markup of its ordered children; in
particular the tree built from the single-button batch renders to exactly
the markup of the button - containing its button tag and no root tag. -/
theorem render_skips_sentinel_root :
    (∀ (cs : List Element) (ind : Nat),
      generate_element_html (Element.mk "root" ⟨0, 0, 0, 0⟩ none 0 cs) ind =
        String.join ((get_children_order
            (determine_flex_direction (Element.mk "root" ⟨0, 0, 0, 0⟩ none 0 cs))
            (Element.mk "root" ⟨0, 0, 0, 0⟩ none 0 cs)).map
          fun child => generate_element_html child ind)) ∧
    create_tree [eButton] = some TREE8 ∧
    generate_html TREE8 = BTN_HTML ∧
    hasSub (generate_html TREE8).data ("root".data) = false ∧
    hasSub (generate_html TREE8).data ("<button".data) = true := by
  have h2 : generate_html TREE8 = BTN_HTML := by
    show generate_element_html TREE8 0 = BTN_HTML
    rw [render_root TREE8 rfl 0, dfd_singleton TREE8 eButton rfl]
    rfl
  refine ⟨fun cs ind => render_root (Element.mk "root" ⟨0, 0, 0, 0⟩ none 0 cs) rfl ind,
    rfl, h2, ?_, ?_⟩
  · rw [h2]
    decide
  · rw [h2]
    decide

/-- C9: a self-closing element kind (class image or input) renders to its
opening line alone - the markup of its children never appears and no
closing tag is emitted, even when children were attached during tree
construction (the rendering equals that of the same element with its
children removed); every other rendered kind (class label neither root nor
image nor input) recurses into its ordered children at one deeper
indentation and then emits its closing tag. -/
theorem selfclosing_vs_container (e : Element) (ind : Nat) :
    ((e.class_name = "image" ∨ e.class_name = "input") →
      generate_element_html e ind = opening_html e ind ∧
      generate_element_html e ind = generate_element_html (e.withChildren []) ind) ∧
    ((e.class_name ≠ "root" ∧ e.class_name ∉ (["image", "input"] : List String)) →
      generate_element_html e ind =
        opening_html e ind ++
          String.join ((get_children_order (determine_flex_direction e) e).map
            fun child => generate_element_html child (ind + 1)) ++
          indentStr ind ++ "</" ++ get_element_tag e.class_name ++ ">\n") := by
  constructor
  · intro h
    refine ⟨render_selfclosing e h ind, ?_⟩
    cases e with
    | mk nm bb ci i cs =>
      have h2 : nm = "image" ∨ nm = "input" := h
      rw [render_selfclosing _ h ind]
      have h3 : (Element.withChildren (Element.mk nm bb ci i cs) []).class_name = "image" ∨
          (Element.withChildren (Element.mk nm bb ci i cs) []).class_name = "input" := h2
      rw [render_selfclosing _ h3 ind]
      exact opening_html_children_irrelevant nm bb ci i cs ind h2
  · rintro ⟨hr, hsc⟩
    exact render_container e hr hsc ind

/-- C9 witness: the self-closing part applied to the concrete image element
carrying a child, and the container part applied to the concrete section
element. -/
theorem selfclosing_vs_container_witness :
    (generate_element_html eImgKid 0 = opening_html eImgKid 0 ∧
      generate_element_html eImgKid 0 = generate_element_html (eImgKid.withChildren []) 0) ∧
    generate_element_html eSection 0 =
      opening_html eSection 0 ++
        String.join ((get_children_order (determine_flex_direction eSection) eSection).map
          fun child => generate_element_html child (0 + 1)) ++
        indentStr 0 ++ "</" ++ get_element_tag eSection.class_name ++ ">\n" :=
  ⟨(selfclosing_vs_container eImgKid 0).1 (Or.inl rfl),
   (selfclosing_vs_container eSection 0).2 ⟨by decide, by decide⟩⟩

/-- C10: the root-skipping decision is made by comparing the class-name
string to root, so any input element labeled root - not only the builder
sentinel - is never emitted as a tag: its ordered children are emitted in
its place at the same indentation; in particular the non-sentinel element
eRootLike (nonzero box, class id 9, one button child) renders, at
indentation 3, to exactly what its button child renders to. -/
theorem root_skip_by_class_string :
    (∀ (bb : BBox) (ci : Option Int) (i ind : Nat) (cs : List Element),
      generate_element_html (Element.mk "root" bb ci i cs) ind =
        String.join ((get_children_order
            (determine_flex_direction (Element.mk "root" bb ci i cs))
            (Element.mk "root" bb ci i cs)).map
          fun child => generate_element_html child ind)) ∧
    generate_element_html eRootLike 3 = generate_element_html eButton 3 := by
  constructor
  · intro bb ci i ind cs
    exact render_root (Element.mk "root" bb ci i cs) rfl ind
  · rw [render_root eRootLike rfl 3, dfd_singleton eRootLike eButton rfl]
    rfl
